import Mathlib

/-!
# logtail: an HTTP handler serving a window of a log file

A shallow embedding of `logtail.go`: query-parameter parsing
(`newRequestParams`), window resolution, seek/read/copy, and redaction
(`redact`, applied through `regexp.ReplaceAllFunc`) in `LogTail.ServeHTTP`.

Conventions of the embedding.

* Go's `int64` and `int` are mathematical integers wrapped explicitly with
  `wrapInt64`; `int` is taken to be 64 bits wide (`intSize`).
* A Go string is a Lean `String`; a byte slice is a `List UInt8`.
* The standard-library functions the handler calls (`strconv.ParseInt`,
  `strconv.Atoi`, `url.Values.Get`, `os.File` operations, `io.CopyN`,
  `regexp.ReplaceAllFunc`, `bytes.Repeat`) are modelled after their Go
  sources and documentation.
* The response is a record of the first status written, the
  `LogTail-File-Length` header, the body bytes, and a trace of the file and
  logger operations performed.
-/

set_option autoImplicit false

namespace Logtail

/-! ## Machine integers -/

/-- Width of Go's `int` (`strconv.IntSize`) on the 64-bit targets modelled here. -/
def intSize : Nat := 64

/-- Two's-complement wrap of a mathematical integer into `int64`. -/
def wrapInt64 (x : Int) : Int := (x + 2 ^ 63) % 2 ^ 64 - 2 ^ 63

/-- The conversion `int(x)` of an `int64` (a 64-bit `int`). -/
def toInt (x : Int) : Int := wrapInt64 x

/-- The conversion `int64(x)` of an `int`. -/
def toInt64 (x : Int) : Int := wrapInt64 x

/-! ## strconv -/

deriving instance DecidableEq for Except

/-- The two error kinds of `strconv.NumError` (`ErrSyntax`, `ErrRange`). -/
inductive NumError where
  | errSyntax
  | errRange
deriving DecidableEq, Repr

/-- Value of a decimal digit character, `none` for every other character. -/
def digitVal (c : Char) : Option Nat :=
  if 48 ≤ c.toNat ∧ c.toNat ≤ 57 then some (c.toNat - 48) else none

/-- The digit loop of `strconv.ParseUint` in base 10: a character that is not a
decimal digit is a syntax error, a value above `maxVal` a range error. -/
def parseUintLoop (maxVal : Nat) : List Char → Nat → Except NumError Nat
  | [], n => .ok n
  | c :: cs, n =>
    match digitVal c with
    | none => .error .errSyntax
    | some d =>
      if n * 10 + d > maxVal then .error .errRange
      else parseUintLoop maxVal cs (n * 10 + d)

/-- The function `strconv.ParseUint(s, 10, bitSize)`. -/
def ParseUint (s : List Char) (bitSize : Nat) : Except NumError Nat :=
  if s = [] then .error .errSyntax
  else parseUintLoop (2 ^ bitSize - 1) s 0

/-- The function `strconv.ParseInt(s, 10, bitSize)`: an optional sign, then
`ParseUint`; a syntax error is passed on, a range error of `ParseUint`
continues with the maximal unsigned value and is caught by the cutoff test. -/
def ParseInt (s : String) (bitSize : Nat) : Except NumError Int :=
  match s.toList with
  | [] => .error .errSyntax
  | c :: rest =>
    let neg : Bool := c = '-'
    let digits := if c = '+' ∨ c = '-' then rest else c :: rest
    match ParseUint digits bitSize with
    | .error .errSyntax => .error .errSyntax
    | r =>
      let un : Nat := match r with
        | .ok n => n
        | .error _ => 2 ^ bitSize - 1
      let cutoff : Nat := 2 ^ (bitSize - 1)
      if !neg && decide (un ≥ cutoff) then .error .errRange
      else if neg && decide (un > cutoff) then .error .errRange
      else .ok (if neg then -(un : Int) else (un : Int))

/-- The digit loop of the fast path of `strconv.Atoi`. -/
def atoiFastLoop : List Char → Int → Except NumError Int
  | [], n => .ok n
  | c :: cs, n =>
    match digitVal c with
    | none => .error .errSyntax
    | some d => atoiFastLoop cs (n * 10 + d)

/-- The function `strconv.Atoi(s)`: strings of 1 to 18 bytes take the fast
path (no range check is needed there), all others go through
`ParseInt(s, 10, 0)`, whose bit size 0 means `intSize`. -/
def Atoi (s : String) : Except NumError Int :=
  let sLen := s.utf8ByteSize
  if 0 < sLen ∧ sLen < 19 then
    match s.toList with
    | [] => .error .errSyntax
    | c :: rest =>
      let digits := if c = '-' ∨ c = '+' then rest else c :: rest
      if (c = '-' ∨ c = '+') ∧ digits = [] then .error .errSyntax
      else
        match atoiFastLoop digits 0 with
        | .error e => .error e
        | .ok n => .ok (if c = '-' then -n else n)
  else
    match ParseInt s intSize with
    | .error e => .error e
    | .ok i64 => .ok (toInt i64)

/-! ## Query parameters -/

/-- The type `url.Values`: a map from keys to lists of values, as an
association list. -/
abbrev Values := List (String × List String)

/-- The method `url.Values.Get`: the first value of the key, or the empty
string when the key has no value. -/
def Values.Get (v : Values) (key : String) : String :=
  match v.lookup key with
  | some (x :: _) => x
  | _ => ""

/-- The constant `defaultOffset`. -/
def defaultOffset : Int := -2048

/-- The constant `defaultLimit`. -/
def defaultLimit : Int := 2048

/-- The struct `requestParams`. -/
structure requestParams where
  offset : Int
  limit : Int
  suffix : String
deriving DecidableEq, Repr

/-- Which parameter `newRequestParams` rejected. -/
inductive ParamError where
  | invalidOffset (value : String)
  | invalidLimit (value : String)
  | invalidSuffix (value : String)
deriving DecidableEq, Repr

/-- The function `newRequestParams`. The result starts as the zero value of
`requestParams`; the offset and limit fields are assigned, the suffix is only
validated (its parsed integer and its string are both dropped). -/
def newRequestParams (v : Values) : Except ParamError requestParams :=
  let result : requestParams := { offset := 0, limit := 0, suffix := "" }
  let offset := v.Get "offset"
  let afterOffset : Except ParamError requestParams :=
    if offset ≠ "" then
      match ParseInt offset 64 with
      | .error _ => .error (.invalidOffset offset)
      | .ok n => .ok { result with offset := n }
    else .ok { result with offset := defaultOffset }
  match afterOffset with
  | .error e => .error e
  | .ok result =>
    let limit := v.Get "limit"
    let afterLimit : Except ParamError requestParams :=
      if limit ≠ "" then
        match Atoi limit with
        | .error _ => .error (.invalidLimit limit)
        | .ok n => .ok { result with limit := n }
      else .ok { result with limit := defaultLimit }
    match afterLimit with
    | .error e => .error e
    | .ok result =>
      let suffix := v.Get "suffix"
      if suffix ≠ "" then
        match Atoi suffix with
        | .error _ => .error (.invalidSuffix suffix)
        | .ok suffixInt =>
          if suffixInt < 0 ∨ suffixInt > 10 then .error (.invalidSuffix suffix)
          else .ok result
      else .ok result

/-! ## Files, regular expressions and responses -/

/-- The bytes of a Go byte slice. -/
abbrev Bytes := List UInt8

/-- An open file: its content, and whether `Stat`, `Seek` or `Read` fail with
an I/O error. The size reported by `Stat` is the length of the content. -/
structure File where
  content : Bytes
  statFails : Bool
  seekFails : Bool
  readFails : Bool
deriving DecidableEq, Repr

/-- The three outcomes of `os.Open` the handler distinguishes. -/
inductive OpenResult where
  | notExist
  | failed
  | ok (f : File)
deriving DecidableEq, Repr

/-- The file system: what `os.Open` returns for each path. -/
abbrev FileSystem := String → OpenResult

/-- The method `f.Stat()` followed by `Size()`; `none` is a failed stat. -/
def File.Stat (f : File) : Option Int :=
  if f.statFails then none else some (f.content.length : Int)

/-- The method `f.Seek(offset, whence)` for `whence` 0 (from the start) and 2
(from the end): the new position, or `none` when the seek fails, which it
also does when the position would be negative. -/
def File.Seek (f : File) (offset : Int) (whence : Nat) : Option Int :=
  if f.seekFails then none
  else
    let pos := if whence = 2 then (f.content.length : Int) + offset else offset
    if pos < 0 then none else some pos

/-- The method `f.Read(buf)` at position `pos` for a buffer of `n` bytes: the
bytes read, or `none` for an error. A buffer of length 0 reads nothing and
succeeds; at end of file the read fails with `io.EOF`. -/
def File.Read (f : File) (pos : Int) (n : Nat) : Option Bytes :=
  if n = 0 then some []
  else if f.readFails then none
  else
    let avail := (f.content.drop pos.toNat).take n
    if avail = [] then none else some avail

/-- A source for `io.CopyN`: the bytes it yields before end of input, and
whether reading it fails with an I/O error. -/
structure Reader where
  data : Bytes
  fails : Bool

/-- The file as an `io.Reader` from position `pos`. -/
def File.reader (f : File) (pos : Int) : Reader :=
  { data := f.content.drop pos.toNat, fails := f.readFails }

/-- The buffer `bytes.NewBuffer(buf)` as an `io.Reader`. -/
def bufferReader (buf : Bytes) : Reader :=
  { data := buf, fails := false }

/-- The function `io.CopyN(w, src, n)` into a writer that accepts every byte:
the bytes written and whether an error is returned. For `n ≤ 0` the limited
reader is at end of input at once and the source is not read; an error is
returned when `n` bytes could not be copied. -/
def CopyN (src : Reader) (n : Int) : Bytes × Bool :=
  if n ≤ 0 then ([], false)
  else if src.fails then ([], true)
  else
    let written := src.data.take n.toNat
    (written, decide ((written.length : Int) < n))

/-- A compiled `regexp.Regexp`, represented by the matches that
`ReplaceAllFunc` visits in a source: half-open index pairs, left to right. -/
structure Regexp where
  findAll : Bytes → List (Nat × Nat)

/-- The slice expression `src[lo:hi]`. -/
def slice (src : Bytes) (lo hi : Nat) : Bytes := (src.drop lo).take (hi - lo)

/-- The loop of `regexp.replaceAll`: copy the unmatched bytes before each
match, insert the replacement (not for an empty match right after another
match), and copy the unmatched bytes after the last match. -/
def replaceAllLoop (repl : Bytes → Bytes) (src : Bytes) : Nat → List (Nat × Nat) → Bytes
  | lastMatchEnd, [] => src.drop lastMatchEnd
  | lastMatchEnd, (a0, a1) :: ms =>
    slice src lastMatchEnd a0
      ++ (if a1 > lastMatchEnd ∨ a0 = 0 then repl (slice src a0 a1) else [])
      ++ replaceAllLoop repl src a1 ms

/-- The method `re.ReplaceAllFunc(src, repl)`. -/
def Regexp.ReplaceAllFunc (re : Regexp) (src : Bytes) (repl : Bytes → Bytes) : Bytes :=
  replaceAllLoop repl src 0 (re.findAll src)

/-- The function `bytes.Repeat(b, count)`. -/
def bytesRepeat (b : Bytes) : Nat → Bytes
  | 0 => []
  | count + 1 => b ++ bytesRepeat b count

/-- The UTF-8 encoding of U+2588 FULL BLOCK, the bytes of the Go string
literal in `redact`. -/
def fullBlock : Bytes := [0xE2, 0x96, 0x88]

/-- The function `redact`. -/
def redact (b : Bytes) : Bytes := bytesRepeat fullBlock b.length

/-- The struct `LogTail`; the logger is represented by the `errorf` events of
the response trace. -/
structure LogTail where
  path : String
  redact : Option Regexp

/-- The messages passed to `logger.Errorf`. -/
inductive LogMsg where
  | failedToOpen (path : String)
  | failedToStat
  | failedToSeek (offset : Int)
  | failedToRead
  | errorWriting
deriving DecidableEq, Repr

/-- File and logger operations performed while serving a request. -/
inductive Event where
  | osOpen (path : String)
  | stat
  | seek (offset : Int) (whence : Nat)
  | makeBuf (len : Int)
  | read (len : Int)
  | copyN (n : Int)
  | errorf (msg : LogMsg)
  | close
deriving DecidableEq, Repr

/-- What the client and the environment observe: the first status passed to
`WriteHeader` (`none` when the handler panicked before writing one), the
`LogTail-File-Length` header, the body, the operations performed, and
whether the handler panicked. -/
structure Response where
  status : Option Nat
  fileLength : Option Int
  body : Bytes
  trace : List Event
  panicked : Bool
deriving DecidableEq, Repr

/-- The constant `http.StatusOK`. -/
def StatusOK : Nat := 200

/-- The constant `http.StatusNoContent`. -/
def StatusNoContent : Nat := 204

/-- The constant `http.StatusBadRequest`. -/
def StatusBadRequest : Nat := 400

/-- The constant `http.StatusNotFound`. -/
def StatusNotFound : Nat := 404

/-- The constant `http.StatusInternalServerError`. -/
def StatusInternalServerError : Nat := 500

/-- Largest allocation `make` accepts (`maxAlloc` of the Go runtime on 64-bit
Linux); a negative or larger length panics. -/
def maxAlloc : Int := 2 ^ 48

/-- The window resolution of `ServeHTTP`: when `0 - offset` (in `int64`) is at
least the file size, the offset becomes 0 and the limit the file size. -/
def clampParams (params : requestParams) (size : Int) : requestParams :=
  if wrapInt64 (0 - params.offset) ≥ size then
    { params with offset := 0, limit := toInt size }
  else params

/-- The path `ServeHTTP` opens. -/
def targetPath (t : LogTail) (params : requestParams) : String :=
  if params.suffix ≠ "" then t.path ++ "." ++ params.suffix else t.path

/-- The part of `ServeHTTP` after a successful seek to `pos`: the optional
redaction, `WriteHeader(StatusOK)` and the copy. A failed read writes status
500 and logs, but does not return: the later `WriteHeader(StatusOK)` is then
superfluous and the copy still runs. -/
def serveContents (t : LogTail) (f : File) (params : requestParams) (size pos : Int)
    (pre : List Event) : Response :=
  match t.redact with
  | none =>
    let out := CopyN (f.reader pos) (toInt64 params.limit)
    { status := some StatusOK, fileLength := some size, body := out.1,
      trace := pre ++ [.copyN (toInt64 params.limit)]
        ++ (if out.2 then [.errorf .errorWriting] else []) ++ [.close],
      panicked := false }
  | some re =>
    if params.limit < 0 ∨ params.limit > maxAlloc then
      { status := none, fileLength := some size, body := [],
        trace := pre ++ [.makeBuf params.limit, .close], panicked := true }
    else
      let zeros : Bytes := List.replicate params.limit.toNat 0
      let rd := f.Read pos params.limit.toNat
      let buf : Bytes := match rd with
        | none => zeros
        | some got => got ++ zeros.drop got.length
      let buf := re.ReplaceAllFunc buf redact
      let out := CopyN (bufferReader buf) (toInt64 params.limit)
      { status := some (if rd.isNone then StatusInternalServerError else StatusOK),
        fileLength := some size, body := out.1,
        trace := pre ++ [.makeBuf params.limit, .read params.limit]
          ++ (if rd.isNone then [.errorf .failedToRead] else [])
          ++ [.copyN (toInt64 params.limit)]
          ++ (if out.2 then [.errorf .errorWriting] else []) ++ [.close],
        panicked := false }

/-- The method `LogTail.ServeHTTP`, on the query of the request. -/
def ServeHTTP (t : LogTail) (fs : FileSystem) (query : Values) : Response :=
  match newRequestParams query with
  | .error _ =>
    { status := some StatusBadRequest, fileLength := none, body := [], trace := [],
      panicked := false }
  | .ok params =>
    let path := targetPath t params
    match fs path with
    | .notExist =>
      { status := some StatusNotFound, fileLength := none, body := [],
        trace := [.osOpen path], panicked := false }
    | .failed =>
      { status := some StatusInternalServerError, fileLength := none, body := [],
        trace := [.osOpen path, .errorf (.failedToOpen path)], panicked := false }
    | .ok f =>
      match f.Stat with
      | none =>
        { status := some StatusInternalServerError, fileLength := none, body := [],
          trace := [.osOpen path, .stat, .errorf .failedToStat, .close], panicked := false }
      | some size =>
        let params := clampParams params size
        if params.offset ≥ size then
          { status := some StatusNoContent, fileLength := some size, body := [],
            trace := [.osOpen path, .stat, .close], panicked := false }
        else
          let whence : Nat := if params.offset < 0 then 2 else 0
          match f.Seek params.offset whence with
          | none =>
            { status := some StatusInternalServerError, fileLength := some size, body := [],
              trace := [.osOpen path, .stat, .seek params.offset whence,
                .errorf (.failedToSeek params.offset), .close],
              panicked := false }
          | some pos =>
            serveContents t f params size pos
              [.osOpen path, .stat, .seek params.offset whence]

/-! ## Concrete inputs used in examples -/

/-- The ASCII bytes of a string. -/
def ascii (s : String) : Bytes := s.toList.map (fun c => c.toNat.toUInt8)

/-- A file with the given content on which every operation succeeds. -/
def goodFile (content : Bytes) : File :=
  { content := content, statFails := false, seekFails := false, readFails := false }

/-- A file system holding one file at one path. -/
def oneFile (path : String) (f : File) : FileSystem :=
  fun p => if p = path then .ok f else .notExist

/-- Matches of a pattern that is a single literal byte: one match per
occurrence. -/
def literalMatches (b : UInt8) : Nat → Bytes → List (Nat × Nat)
  | _, [] => []
  | i, x :: xs =>
    if x = b then (i, i + 1) :: literalMatches b (i + 1) xs else literalMatches b (i + 1) xs

/-- The regular expression matching the single literal byte `b`. -/
def literalByte (b : UInt8) : Regexp := { findAll := literalMatches b 0 }

/-- The ten-byte file of the specification's concrete scenario. -/
def sampleFile : File := goodFile (ascii "ABCDEFGHIJ")

/-- A file system holding `sampleFile` at `/log`. -/
def sampleFS : FileSystem := oneFile "/log" sampleFile

/-- A file system holding a current log at `/log` and a rotated log at
`/log.1`. -/
def rotatedFS : FileSystem :=
  fun p =>
    if p = "/log" then .ok (goodFile (ascii "current"))
    else if p = "/log.1" then .ok (goodFile (ascii "rotated"))
    else .notExist

/-- A handler for `/log` without a redaction pattern. -/
def plainTail : LogTail := { path := "/log", redact := none }

/-- A handler for `/log` whose redaction pattern is the literal byte `I`. -/
def redactingTail : LogTail := { path := "/log", redact := some (literalByte 0x49) }

/-! ## Matches of a regular expression -/

/-- The matches visited in a source of length `len`, starting the search at
`last`, lie inside the source, are in increasing order and do not overlap. -/
def matchesWithin (len : Nat) : Nat → List (Nat × Nat) → Prop
  | last, [] => last ≤ len
  | last, (a0, a1) :: ms => last ≤ a0 ∧ a0 ≤ a1 ∧ matchesWithin len a1 ms

instance decMatchesWithin (len : Nat) :
    (last : Nat) → (ms : List (Nat × Nat)) → Decidable (matchesWithin len last ms)
  | last, [] => inferInstanceAs (Decidable (last ≤ len))
  | last, (a0, a1) :: ms =>
    have := decMatchesWithin len a1 ms
    inferInstanceAs (Decidable (last ≤ a0 ∧ a0 ≤ a1 ∧ matchesWithin len a1 ms))

/-- The number of bytes covered by the matches. -/
def matchedBytes : List (Nat × Nat) → Nat
  | [] => 0
  | (a0, a1) :: ms => (a1 - a0) + matchedBytes ms

/-- The number of bytes before index `i` covered by the matches. -/
def matchedBefore (i : Nat) : List (Nat × Nat) → Nat
  | [] => 0
  | (a0, a1) :: ms => (min a1 i - min a0 i) + matchedBefore i ms

/-! ## The specification's reading of a decimal integer -/

/-- Whether a character is one of the decimal digits `0` to `9`. -/
def isDecimalDigit (c : Char) : Bool := decide (48 ≤ c.toNat ∧ c.toNat ≤ 57)

/-- The number written by a list of decimal digits, most significant first:
the sum of digit times power of ten. -/
def decimalMagnitude (ds : List Char) : Nat :=
  Nat.ofDigits 10 (ds.reverse.map (fun c => c.toNat - 48))

/-- The specification's "base-10 integer": an optional sign followed by one
or more decimal digits, read as a mathematical integer of any size; `none`
for every other string. -/
def decimalValue (s : String) : Option Int :=
  let signed : Bool × List Char :=
    match s.toList with
    | c :: ds => if c = '-' then (true, ds) else if c = '+' then (false, ds) else (false, c :: ds)
    | [] => (false, [])
  if signed.2 ≠ [] ∧ signed.2.all isDecimalDigit then
    some (if signed.1 then -(decimalMagnitude signed.2 : Int) else (decimalMagnitude signed.2 : Int))
  else none

/-- Whether an integer is representable in `int64`. -/
def inInt64 (n : Int) : Prop := -2 ^ 63 ≤ n ∧ n < 2 ^ 63

instance (n : Int) : Decidable (inInt64 n) := by unfold inInt64; infer_instance

/-- Whether a string is a base-10 integer with a value between `lo` and `hi`,
both included. -/
def decimalIn (s : String) (lo hi : Int) : Bool :=
  match decimalValue s with
  | some k => decide (lo ≤ k ∧ k ≤ hi)
  | none => false

/-- The accumulator of the digit loops: the value after reading `cs` starting
from `n`. -/
def digitsValueFrom : List Char → Nat → Nat
  | [], n => n
  | c :: cs, n => digitsValueFrom cs (n * 10 + (c.toNat - 48))

/-! ## Lemmas: machine integers -/

theorem wrapInt64_of_inInt64 {x : Int} (h : inInt64 x) : wrapInt64 x = x := by
  obtain ⟨h1, h2⟩ := h
  unfold wrapInt64
  have h3 : (x + 2 ^ 63) % 2 ^ 64 = x + 2 ^ 63 := Int.emod_eq_of_lt (by omega) (by omega)
  omega

theorem wrapInt64_neg_of_gt {x : Int} (h1 : -2 ^ 63 < x) (h2 : x < 2 ^ 63) :
    wrapInt64 (0 - x) = -x := by
  have h : inInt64 (0 - x) := ⟨by omega, by omega⟩
  rw [wrapInt64_of_inInt64 h]; omega

theorem wrapInt64_neg_min : wrapInt64 (0 - (-2 ^ 63)) = -2 ^ 63 := by decide

/-! ## Lemmas: strconv against the decimal reading -/

theorem digitVal_eq_none {c : Char} : digitVal c = none ↔ isDecimalDigit c = false := by
  unfold digitVal isDecimalDigit
  by_cases h : 48 ≤ c.toNat ∧ c.toNat ≤ 57 <;> simp [h]

theorem digitVal_eq_some {c : Char} {d : Nat} :
    digitVal c = some d ↔ isDecimalDigit c = true ∧ d = c.toNat - 48 := by
  unfold digitVal isDecimalDigit
  by_cases h : 48 ≤ c.toNat ∧ c.toNat ≤ 57 <;> simp [h, eq_comm]

theorem le_digitsValueFrom (cs : List Char) (n : Nat) : n ≤ digitsValueFrom cs n := by
  induction cs generalizing n with
  | nil => simp [digitsValueFrom]
  | cons c cs ih =>
    have := ih (n * 10 + (c.toNat - 48))
    simp only [digitsValueFrom]
    omega

theorem digitsValueFrom_eq (cs : List Char) (n : Nat) :
    digitsValueFrom cs n = n * 10 ^ cs.length + decimalMagnitude cs := by
  induction cs generalizing n with
  | nil => simp [digitsValueFrom, decimalMagnitude]
  | cons c cs ih =>
    simp only [digitsValueFrom, ih, decimalMagnitude, List.reverse_cons, List.map_append,
      List.map_cons, List.map_nil, Nat.ofDigits_append, List.length_cons, List.length_map,
      List.length_reverse, Nat.ofDigits_singleton]
    ring

theorem digitsValueFrom_zero (cs : List Char) : digitsValueFrom cs 0 = decimalMagnitude cs := by
  simp [digitsValueFrom_eq]

theorem digitsValueFrom_lt (cs : List Char) (n : Nat) (h : cs.all isDecimalDigit = true) :
    digitsValueFrom cs n < (n + 1) * 10 ^ cs.length := by
  induction cs generalizing n with
  | nil => simp [digitsValueFrom]
  | cons c cs ih =>
    simp only [List.all_cons, Bool.and_eq_true] at h
    have hc : c.toNat - 48 ≤ 9 := by
      have := h.1
      simp only [isDecimalDigit, decide_eq_true_eq] at this
      omega
    have h1 := ih (n * 10 + (c.toNat - 48)) h.2
    simp only [digitsValueFrom, List.length_cons]
    calc digitsValueFrom cs (n * 10 + (c.toNat - 48))
        < (n * 10 + (c.toNat - 48) + 1) * 10 ^ cs.length := h1
      _ ≤ ((n + 1) * 10) * 10 ^ cs.length := Nat.mul_le_mul_right _ (by omega)
      _ = (n + 1) * 10 ^ (cs.length + 1) := by ring

theorem parseUintLoop_ok_iff (maxVal : Nat) (cs : List Char) (n m : Nat) (hn : n ≤ maxVal) :
    parseUintLoop maxVal cs n = .ok m ↔
      cs.all isDecimalDigit = true ∧ m = digitsValueFrom cs n ∧ m ≤ maxVal := by
  induction cs generalizing n with
  | nil =>
    simp only [parseUintLoop, List.all_nil, digitsValueFrom, true_and, Except.ok.injEq]
    constructor
    · rintro rfl; exact ⟨rfl, hn⟩
    · rintro ⟨rfl, _⟩; rfl
  | cons c cs ih =>
    simp only [parseUintLoop, List.all_cons, Bool.and_eq_true, digitsValueFrom]
    cases hd : digitVal c with
    | none =>
      have := digitVal_eq_none.mp hd
      simp [this]
    | some d =>
      obtain ⟨hc, rfl⟩ := digitVal_eq_some.mp hd
      simp only [hc, true_and]
      by_cases hgt : n * 10 + (c.toNat - 48) > maxVal
      · simp only [hgt, if_true]
        constructor
        · intro h; cases h
        · rintro ⟨_, rfl, hle⟩
          have := le_digitsValueFrom cs (n * 10 + (c.toNat - 48))
          omega
      · simp only [hgt, if_false]
        exact ih _ (by omega)

theorem atoiFastLoop_ok_iff (cs : List Char) (n : Nat) (m : Int) :
    atoiFastLoop cs (n : Int) = .ok m ↔
      cs.all isDecimalDigit = true ∧ m = (digitsValueFrom cs n : Int) := by
  induction cs generalizing n with
  | nil =>
    simp only [atoiFastLoop, List.all_nil, digitsValueFrom, true_and, Except.ok.injEq]
    exact eq_comm
  | cons c cs ih =>
    simp only [atoiFastLoop, List.all_cons, Bool.and_eq_true, digitsValueFrom]
    cases hd : digitVal c with
    | none =>
      have := digitVal_eq_none.mp hd
      simp [this]
    | some d =>
      obtain ⟨hc, rfl⟩ := digitVal_eq_some.mp hd
      simp only [hc, true_and]
      have := ih (n * 10 + (c.toNat - 48))
      push_cast at this ⊢
      exact this

theorem ParseUint_ok_iff (ds : List Char) (un : Nat) :
    ParseUint ds 64 = .ok un ↔
      ds ≠ [] ∧ ds.all isDecimalDigit = true ∧ un = decimalMagnitude ds ∧ un ≤ 2 ^ 64 - 1 := by
  unfold ParseUint
  by_cases h : ds = []
  · simp [h]
  · simp only [h, if_false, ne_eq, not_false_eq_true, true_and]
    rw [parseUintLoop_ok_iff _ _ _ _ (Nat.zero_le _), digitsValueFrom_zero]

theorem ParseInt_ok_iff (s : String) (n : Int) :
    ParseInt s 64 = .ok n ↔ decimalValue s = some n ∧ inInt64 n := by
  unfold ParseInt decimalValue
  cases hs : s.toList with
  | nil => simp
  | cons c rest =>
    have hsig : (if c = '-' then (true, rest) else if c = '+' then (false, rest)
        else (false, c :: rest)) =
        (decide (c = '-'), if c = '+' ∨ c = '-' then rest else c :: rest) := by
      by_cases h1 : c = '-'
      · subst h1; simp
      · by_cases h2 : c = '+'
        · subst h2; simp
        · simp [h1, h2]
    simp only [hsig]
    generalize decide (c = '-') = neg
    generalize (if c = '+' ∨ c = '-' then rest else c :: rest) = ds
    have hU := ParseUint_ok_iff ds
    cases hr : ParseUint ds 64 with
    | error e =>
      have hno : ¬ (ds ≠ [] ∧ ds.all isDecimalDigit = true ∧ decimalMagnitude ds ≤ 2 ^ 64 - 1) := by
        intro h
        have := (hU (decimalMagnitude ds)).mpr ⟨h.1, h.2.1, rfl, h.2.2⟩
        rw [hr] at this; cases this
      refine iff_of_false ?_ ?_
      · cases e <;> cases neg <;> simp only [Bool.not_true, Bool.not_false, Bool.false_and,
          Bool.true_and, decide_eq_true_eq] <;> norm_num <;> exact fun h => nomatch h
      · rintro ⟨h, hin⟩
        split at h
        · rename_i hc
          simp only [Option.some.injEq] at h
          subst h
          apply hno
          refine ⟨hc.1, hc.2, ?_⟩
          unfold inInt64 at hin
          cases neg <;> simp at hin <;> omega
        · cases h
    | ok un =>
      obtain ⟨h1, h2⟩ := hU un
      have hfacts := h1 hr
      obtain ⟨hne, hall, rfl, hle⟩ := hfacts
      simp only [hne, hall, ne_eq, not_false_eq_true, and_self, if_true, Option.some.injEq]
      unfold inInt64
      cases neg
      · simp only [Bool.not_false, Bool.true_and, Bool.false_and, decide_eq_true_eq, if_false,
          Bool.false_eq_true]
        by_cases hb : decimalMagnitude ds ≥ 2 ^ (64 - 1)
        · simp only [hb, if_true, false_iff, not_and, reduceCtorEq]
          rintro rfl
          norm_num at hb
          omega
        · simp only [hb, if_false, Except.ok.injEq]
          norm_num at hb
          constructor
          · rintro rfl; exact ⟨rfl, by omega, by omega⟩
          · rintro ⟨h, _⟩; exact h
      · simp only [Bool.not_true, Bool.true_and, Bool.false_and, decide_eq_true_eq, if_true,
          Bool.false_eq_true, if_false]
        by_cases hb : decimalMagnitude ds > 2 ^ (64 - 1)
        · simp only [hb, if_true, false_iff, not_and, reduceCtorEq]
          rintro rfl
          norm_num at hb
          omega
        · simp only [hb, if_false, Except.ok.injEq]
          norm_num at hb
          constructor
          · rintro rfl; exact ⟨rfl, by omega, by omega⟩
          · rintro ⟨h, _⟩; exact h

theorem length_le_utf8ByteSize_go (cs : List Char) :
    cs.length ≤ String.utf8ByteSize.go cs := by
  induction cs with
  | nil => simp [String.utf8ByteSize.go]
  | cons c cs ih =>
    have := Char.utf8Size_pos c
    simp only [String.utf8ByteSize.go, List.length_cons]
    omega

theorem length_toList_le_utf8ByteSize (s : String) : s.toList.length ≤ s.utf8ByteSize := by
  cases s with
  | mk cs => exact length_le_utf8ByteSize_go cs

theorem Atoi_ok_iff (s : String) (n : Int) :
    Atoi s = .ok n ↔ decimalValue s = some n ∧ inInt64 n := by
  unfold Atoi
  by_cases hlen : 0 < s.utf8ByteSize ∧ s.utf8ByteSize < 19
  · simp only [hlen, and_self, if_true]
    have hlen2 := length_toList_le_utf8ByteSize s
    unfold decimalValue
    cases hs : s.toList with
    | nil => simp
    | cons c rest =>
      rw [hs] at hlen2
      simp only [List.length_cons] at hlen2
      have hsig : (if c = '-' then (true, rest) else if c = '+' then (false, rest)
          else (false, c :: rest)) =
          (decide (c = '-'), if c = '-' ∨ c = '+' then rest else c :: rest) := by
        by_cases h1 : c = '-'
        · subst h1; simp
        · by_cases h2 : c = '+'
          · subst h2; simp
          · simp [h1, h2]
      have hdl : (if c = '-' ∨ c = '+' then rest else c :: rest).length ≤ 18 := by
        split
        · omega
        · simp only [List.length_cons]; omega
      have hnil : ((c = '-' ∨ c = '+') ∧ (if c = '-' ∨ c = '+' then rest else c :: rest) = []) ↔
          (if c = '-' ∨ c = '+' then rest else c :: rest) = [] := by
        constructor
        · exact fun h => h.2
        · intro h
          refine ⟨?_, h⟩
          by_contra hc
          simp [hc] at h
      simp only [hsig, hnil]
      generalize (if c = '-' ∨ c = '+' then rest else c :: rest) = ds at hdl ⊢
      by_cases hds : ds = []
      · simp [hds]
      · have hA := atoiFastLoop_ok_iff ds 0
        simp only [Nat.cast_zero, digitsValueFrom_zero] at hA
        simp only [hds, if_false, ne_eq, not_false_eq_true, true_and]
        cases hr : atoiFastLoop ds 0 with
        | error e =>
          refine iff_of_false (fun h => nomatch h) ?_
          rintro ⟨h, _⟩
          split at h
          · rename_i hall
            have := (hA _).mpr ⟨hall, rfl⟩
            rw [hr] at this; cases this
          · cases h
        | ok m =>
          obtain ⟨hall, rfl⟩ := (hA m).mp hr
          have hlt := digitsValueFrom_lt ds 0 hall
          rw [digitsValueFrom_zero] at hlt
          have hpow : 10 ^ ds.length ≤ 10 ^ 18 := Nat.pow_le_pow_right (by norm_num) hdl
          have hbound : decimalMagnitude ds < 10 ^ 18 := by omega
          have hin : inInt64 (if c = '-' then -(decimalMagnitude ds : Int)
              else (decimalMagnitude ds : Int)) := by
            unfold inInt64
            split <;> constructor <;> omega
          simp only [hall, if_true, Except.ok.injEq, Option.some.injEq, decide_eq_true_eq]
          constructor
          · rintro rfl; exact ⟨rfl, hin⟩
          · rintro ⟨h, _⟩; exact h
  · simp only [hlen, if_false]
    unfold intSize
    have hP := ParseInt_ok_iff s
    cases hr : ParseInt s 64 with
    | error e =>
      refine iff_of_false (fun h => nomatch h) ?_
      intro h
      have := (hP n).mpr h
      rw [hr] at this; cases this
    | ok i =>
      have hi := (hP i).mp hr
      simp only [toInt, wrapInt64_of_inInt64 hi.2, Except.ok.injEq]
      constructor
      · rintro rfl; exact hi
      · intro h
        have := (hP n).mpr h
        rw [hr] at this
        exact Except.ok.inj this

/-! ## Lemmas: `newRequestParams` -/

theorem newRequestParams_ok_iff (v : Values) (p : requestParams) :
    newRequestParams v = .ok p ↔
      (if v.Get "offset" ≠ "" then ParseInt (v.Get "offset") 64 = .ok p.offset
        else p.offset = defaultOffset) ∧
      (if v.Get "limit" ≠ "" then Atoi (v.Get "limit") = .ok p.limit
        else p.limit = defaultLimit) ∧
      (v.Get "suffix" ≠ "" → ∃ k, Atoi (v.Get "suffix") = .ok k ∧ 0 ≤ k ∧ k ≤ 10) ∧
      p.suffix = "" := by
  obtain ⟨po, pl, ps⟩ := p
  unfold newRequestParams
  generalize v.Get "offset" = so
  generalize v.Get "limit" = sl
  generalize v.Get "suffix" = ss
  by_cases ho : so = "" <;> by_cases hl : sl = "" <;> by_cases hx : ss = ""
    <;> simp only [ho, hl, hx, ne_eq, not_true_eq_false, not_false_eq_true, if_true, if_false,
      false_implies, true_implies]
  all_goals
    cases h1 : ParseInt so 64 <;> cases h2 : Atoi sl <;> cases h3 : Atoi ss <;>
      simp only [Except.ok.injEq, requestParams.mk.injEq, reduceCtorEq, false_and, and_false,
        exists_false, exists_eq_left', true_and, and_true, iff_self, false_iff, not_and,
        not_false_eq_true, implies_true] <;>
      first
        | done
        | (split <;>
            simp only [Except.ok.injEq, requestParams.mk.injEq, reduceCtorEq, false_iff,
              not_and] <;>
            first
              | (constructor <;> rintro ⟨rfl, rfl, h⟩ <;> simp_all)
              | (intros; omega))
        | (constructor <;> rintro ⟨rfl, rfl, h⟩ <;> simp_all)

theorem newRequestParams_inInt64 {v : Values} {p : requestParams}
    (h : newRequestParams v = .ok p) : inInt64 p.offset ∧ inInt64 p.limit ∧ p.suffix = "" := by
  obtain ⟨ho, hl, _, hs⟩ := (newRequestParams_ok_iff v p).mp h
  refine ⟨?_, ?_, hs⟩
  · split at ho
    · exact ((ParseInt_ok_iff _ _).mp ho).2
    · rw [ho]; decide
  · split at hl
    · exact ((Atoi_ok_iff _ _).mp hl).2
    · rw [hl]; decide

theorem decimalIn_eq_true_iff (s : String) (lo hi : Int) :
    decimalIn s lo hi = true ↔ ∃ k, decimalValue s = some k ∧ lo ≤ k ∧ k ≤ hi := by
  unfold decimalIn
  cases decimalValue s with
  | none => simp
  | some k => simp

theorem ParseInt_isOk_iff (s : String) :
    (∃ n, ParseInt s 64 = .ok n) ↔ decimalIn s (-2 ^ 63) (2 ^ 63 - 1) = true := by
  rw [decimalIn_eq_true_iff]
  constructor
  · rintro ⟨n, h⟩
    obtain ⟨h1, h2, h3⟩ := (ParseInt_ok_iff s n).mp h
    exact ⟨n, h1, h2, by omega⟩
  · rintro ⟨n, h1, h2, h3⟩
    exact ⟨n, (ParseInt_ok_iff s n).mpr ⟨h1, h2, by omega⟩⟩

theorem Atoi_isOk_iff (s : String) :
    (∃ n, Atoi s = .ok n) ↔ decimalIn s (-2 ^ 63) (2 ^ 63 - 1) = true := by
  rw [decimalIn_eq_true_iff]
  constructor
  · rintro ⟨n, h⟩
    obtain ⟨h1, h2, h3⟩ := (Atoi_ok_iff s n).mp h
    exact ⟨n, h1, h2, by omega⟩
  · rintro ⟨n, h1, h2, h3⟩
    exact ⟨n, (Atoi_ok_iff s n).mpr ⟨h1, h2, by omega⟩⟩

theorem Atoi_in_range_iff (s : String) :
    (∃ k, Atoi s = .ok k ∧ 0 ≤ k ∧ k ≤ 10) ↔ decimalIn s 0 10 = true := by
  rw [decimalIn_eq_true_iff]
  constructor
  · rintro ⟨k, h, h0, h10⟩
    exact ⟨k, ((Atoi_ok_iff s k).mp h).1, h0, h10⟩
  · rintro ⟨k, h, h0, h10⟩
    exact ⟨k, (Atoi_ok_iff s k).mpr ⟨h, by omega, by omega⟩, h0, h10⟩

theorem newRequestParams_isOk_iff (v : Values) :
    (∃ p, newRequestParams v = .ok p) ↔
      (v.Get "offset" = "" ∨ decimalIn (v.Get "offset") (-2 ^ 63) (2 ^ 63 - 1) = true) ∧
      (v.Get "limit" = "" ∨ decimalIn (v.Get "limit") (-2 ^ 63) (2 ^ 63 - 1) = true) ∧
      (v.Get "suffix" = "" ∨ decimalIn (v.Get "suffix") 0 10 = true) := by
  rw [← ParseInt_isOk_iff, ← Atoi_isOk_iff, ← Atoi_in_range_iff]
  constructor
  · rintro ⟨p, hp⟩
    obtain ⟨ho, hl, hs, _⟩ := (newRequestParams_ok_iff v p).mp hp
    refine ⟨?_, ?_, ?_⟩
    · by_cases h : v.Get "offset" = ""
      · exact Or.inl h
      · rw [if_pos h] at ho; exact Or.inr ⟨_, ho⟩
    · by_cases h : v.Get "limit" = ""
      · exact Or.inl h
      · rw [if_pos h] at hl; exact Or.inr ⟨_, hl⟩
    · by_cases h : v.Get "suffix" = ""
      · exact Or.inl h
      · exact Or.inr (hs h)
  · rintro ⟨ho, hl, hs⟩
    have hO : ∃ o, if v.Get "offset" ≠ "" then ParseInt (v.Get "offset") 64 = .ok o
        else o = defaultOffset := by
      by_cases h : v.Get "offset" = ""
      · exact ⟨defaultOffset, by simp [h]⟩
      · obtain ⟨o, ho⟩ := ho.resolve_left h
        exact ⟨o, by simp [h, ho]⟩
    have hL : ∃ l, if v.Get "limit" ≠ "" then Atoi (v.Get "limit") = .ok l
        else l = defaultLimit := by
      by_cases h : v.Get "limit" = ""
      · exact ⟨defaultLimit, by simp [h]⟩
      · obtain ⟨l, hl⟩ := hl.resolve_left h
        exact ⟨l, by simp [h, hl]⟩
    obtain ⟨o, hO⟩ := hO
    obtain ⟨l, hL⟩ := hL
    refine ⟨⟨o, l, ""⟩, (newRequestParams_ok_iff v _).mpr ⟨hO, hL, ?_, rfl⟩⟩
    intro h
    exact hs.resolve_left h

/-! ## Lemmas: the handler after a successful open and stat -/

theorem clampParams_of_lt {p : requestParams} {size : Int}
    (h : wrapInt64 (0 - p.offset) < size) : clampParams p size = p := by
  unfold clampParams
  rw [if_neg (by omega)]

theorem clampParams_of_ge {p : requestParams} {size : Int}
    (h : wrapInt64 (0 - p.offset) ≥ size) :
    clampParams p size = { p with offset := 0, limit := toInt size } := by
  unfold clampParams
  rw [if_pos h]

theorem take_eq_take_min {α : Type} (l : List α) (n : Nat) :
    l.take n = l.take (min n l.length) := by
  rw [List.take_eq_take]; simp

theorem File.Seek_eq_some (f : File) (offset : Int) (hseek : f.seekFails = false)
    (hpos : 0 ≤ (if offset < 0 then (f.content.length : Int) + offset else offset)) :
    f.Seek offset (if offset < 0 then 2 else 0) =
      some (if offset < 0 then (f.content.length : Int) + offset else offset) := by
  unfold File.Seek
  by_cases h : offset < 0
  · simp only [h, if_true, hseek, Bool.false_eq_true, if_false] at hpos ⊢
    rw [if_neg (by omega)]
  · simp only [h, if_false, hseek, Bool.false_eq_true] at hpos ⊢
    simp only [show ¬ ((0 : Nat) = 2) by decide, if_false]
    rw [if_neg (by omega)]

theorem inInt64_wrapInt64 (x : Int) : inInt64 (wrapInt64 x) := by
  unfold inInt64 wrapInt64
  have h1 : 0 ≤ (x + 2 ^ 63) % 2 ^ 64 := Int.emod_nonneg _ (by norm_num)
  have h2 : (x + 2 ^ 63) % 2 ^ 64 < 2 ^ 64 := Int.emod_lt_of_pos _ (by norm_num)
  constructor <;> omega

theorem inInt64_clampParams_limit {p : requestParams} (size : Int) (h : inInt64 p.limit) :
    inInt64 (clampParams p size).limit := by
  unfold clampParams
  split
  · exact inInt64_wrapInt64 size
  · exact h

theorem CopyN_length_le (src : Reader) (n : Int) : ((CopyN src n).1.length : Int) ≤ max 0 n := by
  unfold CopyN
  by_cases h1 : n ≤ 0
  · simp [h1]
  · by_cases h2 : src.fails = true
    · simp [h1, h2]
    · simp only [h1, h2, if_false, Bool.false_eq_true, List.length_take]
      omega

theorem serveContents_body_le (t : LogTail) (f : File) (params : requestParams)
    (size pos : Int) (pre : List Event) (h : inInt64 params.limit) :
    ((serveContents t f params size pos pre).body.length : Int) ≤ max 0 params.limit := by
  unfold serveContents
  cases t.redact with
  | none =>
    have := CopyN_length_le (f.reader pos) params.limit
    simpa only [toInt64, wrapInt64_of_inInt64 h] using this
  | some re =>
    simp only
    split
    · simp
    · have := CopyN_length_le
        (bufferReader (re.ReplaceAllFunc
          (match f.Read pos params.limit.toNat with
            | none => List.replicate params.limit.toNat 0
            | some got => got ++ (List.replicate params.limit.toNat 0).drop got.length) redact))
        params.limit
      simpa only [toInt64, wrapInt64_of_inInt64 h] using this

theorem body_length_le_clamped_limit (t : LogTail) (fs : FileSystem) (query : Values)
    (p : requestParams) (f : File)
    (hp : newRequestParams query = .ok p)
    (hopen : fs (targetPath t p) = .ok f) :
    ((ServeHTTP t fs query).body.length : Int) ≤
      max 0 (clampParams p (f.content.length : Int)).limit := by
  have hlim := inInt64_clampParams_limit (f.content.length : Int) (newRequestParams_inInt64 hp).2.1
  simp only [ServeHTTP, hp, hopen, File.Stat]
  by_cases hstat : f.statFails = true
  · simp [hstat]
  · simp only [hstat, if_false, Bool.false_eq_true]
    split
    · simp
    · split
      · simp
      · exact serveContents_body_le _ _ _ _ _ _ hlim

theorem ServeHTTP_min_offset_status (t : LogTail) (fs : FileSystem) (query : Values)
    (p : requestParams) (f : File)
    (hp : newRequestParams query = .ok p)
    (hopen : fs (targetPath t p) = .ok f)
    (hO : p.offset = -2 ^ 63) (hS : (f.content.length : Int) < 2 ^ 63) :
    (ServeHTTP t fs query).status = some 500 := by
  have hw : wrapInt64 (0 - p.offset) < (f.content.length : Int) := by
    rw [hO, wrapInt64_neg_min]; omega
  have hnot : ¬ p.offset ≥ (f.content.length : Int) := by omega
  have hneg : p.offset < 0 := by omega
  simp only [ServeHTTP, hp, hopen, File.Stat]
  by_cases hstat : f.statFails = true
  · simp [hstat, StatusInternalServerError]
  · simp only [hstat, if_false, Bool.false_eq_true, clampParams_of_lt hw, hnot, hneg, if_true,
      File.Seek]
    by_cases hseek : f.seekFails = true
    · simp [hseek, StatusInternalServerError]
    · simp only [hseek, if_false, Bool.false_eq_true]
      rw [if_pos (by omega)]
      simp [StatusInternalServerError]

/-! ## Lemmas: redaction -/

theorem length_bytesRepeat (b : Bytes) (count : Nat) :
    (bytesRepeat b count).length = count * b.length := by
  induction count with
  | zero => simp [bytesRepeat]
  | succ n ih => simp only [bytesRepeat, List.length_append, ih]; ring

theorem fullBlock_eq_utf8 : String.utf8EncodeChar (Char.ofNat 0x2588) = fullBlock := by
  decide

theorem length_redact (b : Bytes) : (redact b).length = 3 * b.length := by
  unfold redact
  rw [length_bytesRepeat]
  simp only [fullBlock, List.length_cons, List.length_nil]
  omega

theorem matchesWithin_le {len : Nat} {last : Nat} {ms : List (Nat × Nat)}
    (h : matchesWithin len last ms) : last ≤ len := by
  induction ms generalizing last with
  | nil => exact h
  | cons m ms ih =>
    obtain ⟨a0, a1⟩ := m
    obtain ⟨h1, h2, h3⟩ := h
    have := ih h3
    omega

theorem length_slice (src : Bytes) (lo hi : Nat) (h : hi ≤ src.length) :
    (slice src lo hi).length = hi - lo := by
  unfold slice
  rw [List.length_take, List.length_drop]
  omega

theorem length_replacement (src : Bytes) (last a0 a1 : Nat)
    (h1 : last ≤ a0) (h2 : a0 ≤ a1) (h3 : a1 ≤ src.length) :
    (if a1 > last ∨ a0 = 0 then redact (slice src a0 a1) else []).length = 3 * (a1 - a0) := by
  split
  · rw [length_redact, length_slice src a0 a1 h3]
  · rename_i hg
    simp only [List.length_nil]
    omega

theorem length_replaceAllLoop (src : Bytes) (ms : List (Nat × Nat)) (last : Nat)
    (hwf : matchesWithin src.length last ms) :
    (replaceAllLoop redact src last ms).length = (src.length - last) + 2 * matchedBytes ms := by
  induction ms generalizing last with
  | nil => simp [replaceAllLoop, matchedBytes]
  | cons m ms ih =>
    obtain ⟨a0, a1⟩ := m
    obtain ⟨h1, h2, h3⟩ := hwf
    have h4 := matchesWithin_le h3
    simp only [replaceAllLoop, List.length_append, ih a1 h3, matchedBytes,
      length_replacement src last a0 a1 h1 h2 h4, length_slice src last a0 (by omega)]
    omega

theorem matchedBefore_eq_zero {len : Nat} (i : Nat) (ms : List (Nat × Nat)) (last : Nat)
    (hwf : matchesWithin len last ms) (hi : i ≤ last) : matchedBefore i ms = 0 := by
  induction ms generalizing last with
  | nil => rfl
  | cons m ms ih =>
    obtain ⟨a0, a1⟩ := m
    obtain ⟨h1, h2, h3⟩ := hwf
    simp only [matchedBefore, ih a1 h3 (by omega)]
    omega

theorem getElem?_replaceAllLoop (src : Bytes) (ms : List (Nat × Nat)) (last i : Nat)
    (hwf : matchesWithin src.length last ms) (hi : last ≤ i)
    (hout : ∀ m ∈ ms, ¬ (m.1 ≤ i ∧ i < m.2)) :
    (replaceAllLoop redact src last ms)[(i - last) + 2 * matchedBefore i ms]? = src[i]? := by
  induction ms generalizing last with
  | nil =>
    simp only [replaceAllLoop, matchedBefore, Nat.mul_zero, Nat.add_zero, List.getElem?_drop]
    congr 1
    omega
  | cons m ms ih =>
    obtain ⟨a0, a1⟩ := m
    obtain ⟨h1, h2, h3⟩ := hwf
    have h4 := matchesWithin_le h3
    have hhead := hout (a0, a1) (List.mem_cons_self _ _)
    have htail : ∀ m ∈ ms, ¬ (m.1 ≤ i ∧ i < m.2) :=
      fun m hm => hout m (List.mem_cons_of_mem _ hm)
    have hA := length_slice src last a0 (by omega : a0 ≤ src.length)
    have hB := length_replacement src last a0 a1 h1 h2 h4
    simp only [replaceAllLoop, matchedBefore]
    by_cases hlt : i < a0
    · have hz := matchedBefore_eq_zero i ms a1 h3 (by omega)
      have hidx : (i - last) + 2 * ((min a1 i - min a0 i) + matchedBefore i ms) = i - last := by
        rw [hz]; omega
      rw [hidx, List.getElem?_append_left (by rw [List.length_append, hA]; omega),
        List.getElem?_append_left (by rw [hA]; omega)]
      unfold slice
      rw [List.getElem?_take_of_lt (by omega), List.getElem?_drop]
      congr 1
      omega
    · have hge : a1 ≤ i := by
        simp only [not_and, not_lt] at hhead
        exact hhead (by omega)
      have hidx : (i - last) + 2 * ((min a1 i - min a0 i) + matchedBefore i ms)
          = ((a0 - last) + 3 * (a1 - a0)) + ((i - a1) + 2 * matchedBefore i ms) := by
        omega
      rw [hidx, List.getElem?_append_right (by rw [List.length_append, hA, hB]; omega)]
      rw [List.length_append, hA, hB, Nat.add_sub_cancel_left]
      exact ih a1 h3 hge htail

theorem length_ReplaceAllFunc_redact (re : Regexp) (buf : Bytes)
    (hwf : matchesWithin buf.length 0 (re.findAll buf)) :
    (re.ReplaceAllFunc buf redact).length = buf.length + 2 * matchedBytes (re.findAll buf) := by
  have := length_replaceAllLoop buf (re.findAll buf) 0 hwf
  simpa [Regexp.ReplaceAllFunc] using this

/-- With a redaction pattern, a successful read and a limit L that `make`
accepts, the body has exactly L bytes, however few bytes the file holds after
the start position. -/
theorem redacted_body_length (t : LogTail) (re : Regexp) (fs : FileSystem) (query : Values)
    (p : requestParams) (f : File)
    (hre : t.redact = some re)
    (hwf : ∀ buf, matchesWithin buf.length 0 (re.findAll buf))
    (hp : newRequestParams query = .ok p)
    (hopen : fs (targetPath t p) = .ok f)
    (hstat : f.statFails = false) (hseek : f.seekFails = false) (hread : f.readFails = false)
    (hO1 : -(f.content.length : Int) < p.offset)
    (hO2 : p.offset < (f.content.length : Int))
    (hL1 : 0 ≤ p.limit) (hL2 : p.limit ≤ maxAlloc) :
    (ServeHTTP t fs query).status = some 200 ∧
    ((ServeHTTP t fs query).body.length : Int) = p.limit := by
  obtain ⟨hin, hlim, _⟩ := newRequestParams_inInt64 hp
  have hw : wrapInt64 (0 - p.offset) < (f.content.length : Int) := by
    by_cases hmin : p.offset = -2 ^ 63
    · rw [hmin, wrapInt64_neg_min]; omega
    · rw [wrapInt64_neg_of_gt (by have := hin.1; omega) hin.2]; omega
  have hnot : ¬ p.offset ≥ (f.content.length : Int) := by omega
  have hpos : 0 ≤ (if p.offset < 0 then (f.content.length : Int) + p.offset else p.offset) := by
    split <;> omega
  have hlt : (if p.offset < 0 then (f.content.length : Int) + p.offset else p.offset)
      < (f.content.length : Int) := by
    split <;> omega
  have hsk := File.Seek_eq_some f p.offset hseek hpos
  have hpanic : ¬ (p.limit < 0 ∨ p.limit > maxAlloc) := by omega
  simp only [ServeHTTP, hp, hopen, File.Stat, hstat, Bool.false_eq_true, if_false,
    clampParams_of_lt hw, hnot, hsk, serveContents, hre, hpanic, CopyN, bufferReader,
    toInt64, wrapInt64_of_inInt64 hlim]
  generalize (if p.offset < 0 then (f.content.length : Int) + p.offset else p.offset) = start
    at hpos hlt ⊢
  have hbuf : ∀ rd : Option Bytes, (∀ got, rd = some got → got.length ≤ p.limit.toNat) →
      (match rd with
        | none => List.replicate p.limit.toNat (0 : UInt8)
        | some got => got ++ (List.replicate p.limit.toNat (0 : UInt8)).drop got.length).length
        = p.limit.toNat := by
    intro rd hrd
    cases rd with
    | none => simp
    | some got =>
      have := hrd got rfl
      simp only [List.length_append, List.length_drop, List.length_replicate]
      omega
  have hreadlen : ∀ got, f.Read start p.limit.toNat = some got → got.length ≤ p.limit.toNat := by
    intro got hgot
    unfold File.Read at hgot
    split at hgot
    · cases hgot; simp
    · simp only [hread, Bool.false_eq_true, if_false] at hgot
      split at hgot
      · cases hgot
      · cases hgot
        simp only [List.length_take]
        omega
  have hsome : (f.Read start p.limit.toNat).isNone = false := by
    unfold File.Read
    by_cases h0 : p.limit.toNat = 0
    · simp [h0]
    · have hne : (f.content.drop start.toNat).take p.limit.toNat ≠ [] := by
        intro h
        have hl := congrArg List.length h
        simp only [List.length_take, List.length_drop, List.length_nil] at hl
        omega
      simp [h0, hread, hne]
  have hb := hbuf (f.Read start p.limit.toNat) hreadlen
  have hlen := length_ReplaceAllFunc_redact re _ (hwf
    (match f.Read start p.limit.toNat with
      | none => List.replicate p.limit.toNat (0 : UInt8)
      | some got => got ++ (List.replicate p.limit.toNat (0 : UInt8)).drop got.length))
  rw [hb] at hlen
  refine ⟨by simp [hsome, StatusOK], ?_⟩
  by_cases hL0 : p.limit ≤ 0
  · have : p.limit = 0 := by omega
    simp [this]
  · simp only [hL0, if_false, List.length_take, hlen]
    omega

/-- What `redact` does to lengths and positions: it returns three bytes per
byte of its argument, so replacing all matches (which lie in the buffer, in
order and without overlap) lengthens the buffer by two bytes per matched
byte, and a byte outside every match moves from its index i to i plus twice
the number of matched bytes before i. -/
theorem getElem?_ReplaceAllFunc_redact (re : Regexp) (buf : Bytes)
    (hwf : matchesWithin buf.length 0 (re.findAll buf)) (i : Nat)
    (hout : ∀ m ∈ re.findAll buf, ¬ (m.1 ≤ i ∧ i < m.2)) :
    (re.ReplaceAllFunc buf redact)[i + 2 * matchedBefore i (re.findAll buf)]? = buf[i]? := by
  have := getElem?_replaceAllLoop buf (re.findAll buf) 0 i hwf (Nat.zero_le _) hout
  simpa [Regexp.ReplaceAllFunc] using this

/-- On an empty file every accepted query with an offset above the least
`int64` is answered with status 204: the clamp, when it fires, sets the
offset to 0, and the guard `offset >= size` then holds. -/
theorem ServeHTTP_empty_file (t : LogTail) (fs : FileSystem) (query : Values)
    (p : requestParams) (f : File)
    (hp : newRequestParams query = .ok p)
    (hopen : fs (targetPath t p) = .ok f)
    (hstat : f.statFails = false)
    (hS : f.content.length = 0)
    (hmin : -2 ^ 63 < p.offset) :
    ServeHTTP t fs query =
      { status := some 204, fileLength := some 0, body := [],
        trace := [.osOpen (targetPath t p), .stat, .close], panicked := false } := by
  have hin := (newRequestParams_inInt64 hp).1
  have hclamp : (clampParams p (f.content.length : Int)).offset ≥ (f.content.length : Int) := by
    unfold clampParams
    rw [hS]
    split
    · simp
    · rename_i hc
      rw [wrapInt64_neg_of_gt hmin hin.2] at hc
      simp only [Nat.cast_zero] at hc ⊢
      omega
  rw [hS] at hclamp
  simp only [Nat.cast_zero] at hclamp
  simp only [ServeHTTP, hp, hopen, File.Stat, hstat, Bool.false_eq_true, if_false, hS,
    Nat.cast_zero, hclamp, if_true, StatusNoContent]

/-! ## Claims -/

/-- C4. For every file of size S whose open and stat succeed and every accepted
query whose offset is at least S (whatever the limit), `ServeHTTP` answers
with status 204 and an empty body, and the only file operations are the open,
the stat and the close: no seek, read or copy is performed. -/
theorem ServeHTTP_offset_past_end (t : LogTail) (fs : FileSystem) (query : Values)
    (p : requestParams) (f : File)
    (hp : newRequestParams query = .ok p)
    (hopen : fs (targetPath t p) = .ok f)
    (hstat : f.statFails = false)
    (hO : (f.content.length : Int) ≤ p.offset) :
    ServeHTTP t fs query =
      { status := some 204, fileLength := some (f.content.length : Int), body := [],
        trace := [.osOpen (targetPath t p), .stat, .close], panicked := false } := by
  have hin := (newRequestParams_inInt64 hp).1
  have hclamp : (clampParams p (f.content.length : Int)).offset ≥ (f.content.length : Int) := by
    unfold clampParams
    split
    · rename_i hc
      have hneg : wrapInt64 (0 - p.offset) ≤ 0 := by
        by_cases h0 : p.offset = 0
        · rw [h0]; decide
        · rw [wrapInt64_neg_of_gt (by omega) hin.2]; omega
      simp only
      omega
    · exact hO
  simp only [ServeHTTP, hp, hopen, File.Stat, hstat, Bool.false_eq_true, if_false, hclamp,
    if_true, StatusNoContent]

/-- C1. With no redaction pattern, a file of size S and content c whose
open, stat, seek and read succeed, and an accepted query with offset O,
-S < O < S, and limit L ≥ 0: the status is 200 and the body is exactly
c[start .. min(start+L, S)), where start = S+O if O < 0 and start = O
otherwise. -/
theorem ServeHTTP_window (t : LogTail) (fs : FileSystem) (query : Values)
    (p : requestParams) (f : File)
    (hnone : t.redact = none)
    (hp : newRequestParams query = .ok p)
    (hopen : fs (targetPath t p) = .ok f)
    (hstat : f.statFails = false) (hseek : f.seekFails = false) (hread : f.readFails = false)
    (hO1 : -(f.content.length : Int) < p.offset)
    (hO2 : p.offset < (f.content.length : Int))
    (hL : 0 ≤ p.limit) :
    (ServeHTTP t fs query).status = some 200 ∧
    (ServeHTTP t fs query).body =
      slice f.content
        (if p.offset < 0 then (f.content.length : Int) + p.offset else p.offset).toNat
        (min ((if p.offset < 0 then (f.content.length : Int) + p.offset else p.offset) + p.limit)
          (f.content.length : Int)).toNat := by
  obtain ⟨hin, hlim, _⟩ := newRequestParams_inInt64 hp
  have hw : wrapInt64 (0 - p.offset) < (f.content.length : Int) := by
    by_cases hmin : p.offset = -2 ^ 63
    · rw [hmin, wrapInt64_neg_min]; omega
    · rw [wrapInt64_neg_of_gt (by have := hin.1; omega) hin.2]; omega
  have hnot : ¬ p.offset ≥ (f.content.length : Int) := by omega
  have hpos : 0 ≤ (if p.offset < 0 then (f.content.length : Int) + p.offset else p.offset) := by
    split <;> omega
  have hsk := File.Seek_eq_some f p.offset hseek hpos
  simp only [ServeHTTP, hp, hopen, File.Stat, hstat, Bool.false_eq_true, if_false,
    clampParams_of_lt hw, hnot, hsk, serveContents, hnone, CopyN, File.reader,
    hread, toInt64, wrapInt64_of_inInt64 hlim, StatusOK, true_and, slice]
  generalize (if p.offset < 0 then (f.content.length : Int) + p.offset else p.offset) = start
    at hpos ⊢
  by_cases hL0 : p.limit ≤ 0
  · have : p.limit = 0 := by omega
    simp [this]
  · simp only [hL0, if_false]
    rw [List.take_eq_take, List.length_drop]
    omega

/-- Witness of C1: on the content "ABCDEFGHIJ", offset=2 and limit=3 give body
"CDE"; offset=-3 and limit=10 give body "HIJ". -/
theorem ServeHTTP_window_witness :
    ((ServeHTTP plainTail sampleFS [("offset", ["2"]), ("limit", ["3"])]).status = some 200 ∧
      (ServeHTTP plainTail sampleFS [("offset", ["2"]), ("limit", ["3"])]).body = ascii "CDE") ∧
    ((ServeHTTP plainTail sampleFS [("offset", ["-3"]), ("limit", ["10"])]).status = some 200 ∧
      (ServeHTTP plainTail sampleFS [("offset", ["-3"]), ("limit", ["10"])]).body = ascii "HIJ") :=
  have h1 := ServeHTTP_window plainTail sampleFS [("offset", ["2"]), ("limit", ["3"])]
    ⟨2, 3, ""⟩ sampleFile rfl (by decide) (by decide) rfl rfl rfl (by decide) (by decide)
    (by decide)
  have h2 := ServeHTTP_window plainTail sampleFS [("offset", ["-3"]), ("limit", ["10"])]
    ⟨-3, 10, ""⟩ sampleFile rfl (by decide) (by decide) rfl rfl rfl (by decide) (by decide)
    (by decide)
  ⟨⟨h1.1, h1.2.trans (by decide)⟩, ⟨h2.1, h2.2.trans (by decide)⟩⟩

/-- Witness of C4: on the ten-byte file, offset=20 gives status 204 and an
empty body. -/
theorem ServeHTTP_offset_past_end_witness :
    ServeHTTP plainTail sampleFS [("offset", ["20"])] =
      { status := some 204, fileLength := some 10, body := [],
        trace := [.osOpen "/log", .stat, .close], panicked := false } :=
  ServeHTTP_offset_past_end plainTail sampleFS [("offset", ["20"])] ⟨20, 2048, ""⟩ sampleFile
    (by decide) (by decide) rfl (by decide)

/-- C3, as the code has it. Clamp-to-whole-file rule: for every non-empty file
of size S (open, stat, seek and read succeeding, no redaction pattern), every
accepted offset O with -2^63 < O ≤ -S and every limit, `ServeHTTP` answers
with status 200 and a body equal to the entire file content. -/
theorem ServeHTTP_clamp_whole_file (t : LogTail) (fs : FileSystem) (query : Values)
    (p : requestParams) (f : File)
    (hnone : t.redact = none)
    (hp : newRequestParams query = .ok p)
    (hopen : fs (targetPath t p) = .ok f)
    (hstat : f.statFails = false) (hseek : f.seekFails = false) (hread : f.readFails = false)
    (hS : 0 < f.content.length)
    (hO : p.offset ≤ -(f.content.length : Int))
    (hmin : -2 ^ 63 < p.offset) :
    (ServeHTTP t fs query).status = some 200 ∧
    (ServeHTTP t fs query).body = f.content := by
  obtain ⟨hin, _, _⟩ := newRequestParams_inInt64 hp
  have hw : wrapInt64 (0 - p.offset) ≥ (f.content.length : Int) := by
    rw [wrapInt64_neg_of_gt hmin hin.2]; omega
  have hsize : inInt64 (f.content.length : Int) := ⟨by omega, by omega⟩
  have hnot : ¬ (0 : Int) ≥ (f.content.length : Int) := by omega
  have hsk := File.Seek_eq_some f 0 hseek (by simp)
  simp only [lt_self_iff_false, if_false] at hsk
  have hSpos : ¬ (f.content.length : Int) ≤ 0 := by omega
  simp only [ServeHTTP, hp, hopen, File.Stat, hstat, Bool.false_eq_true, if_false,
    clampParams_of_ge hw, hnot, lt_self_iff_false, hsk, serveContents, hnone, CopyN,
    File.reader, hread, toInt64, toInt, wrapInt64_of_inInt64 hsize, StatusOK, true_and, hSpos,
    Int.toNat_zero, List.drop_zero, Int.toNat_ofNat, List.take_length]

/-- Witness of C3 as amended: offset=-10 on the ten-byte file serves the whole
file. -/
theorem ServeHTTP_clamp_whole_file_witness :
    (ServeHTTP plainTail sampleFS [("offset", ["-10"]), ("limit", ["10"])]).status = some 200 ∧
    (ServeHTTP plainTail sampleFS [("offset", ["-10"]), ("limit", ["10"])]).body
      = ascii "ABCDEFGHIJ" :=
  ServeHTTP_clamp_whole_file plainTail sampleFS [("offset", ["-10"]), ("limit", ["10"])]
    ⟨-10, 10, ""⟩ sampleFile rfl (by decide) (by decide) rfl rfl rfl (by decide) (by decide)
    (by decide)

/-- Counterexample to C3 as stated: the empty file has size S = 0, the offset 0
satisfies O ≤ -S and the limit 0 satisfies L ≥ S, every operation succeeds and
there is no redaction pattern, yet the status is 204, not 200. -/
theorem ServeHTTP_clamp_empty_file_counterexample :
    newRequestParams [("offset", ["0"]), ("limit", ["0"])] = .ok ⟨0, 0, ""⟩ ∧
    (0 : Int) ≤ -(((goodFile []).content.length : Nat) : Int) ∧
    (0 : Int) ≥ (((goodFile []).content.length : Nat) : Int) ∧
    (ServeHTTP plainTail (oneFile "/log" (goodFile []))
      [("offset", ["0"]), ("limit", ["0"])]).status = some 204 ∧
    ¬ ((ServeHTTP plainTail (oneFile "/log" (goodFile []))
        [("offset", ["0"]), ("limit", ["0"])]).status = some 200 ∧
      (ServeHTTP plainTail (oneFile "/log" (goodFile []))
        [("offset", ["0"]), ("limit", ["0"])]).body = (goodFile []).content) := by
  decide

/-- The clamp test `0 - offset >= size` wraps at the least `int64`: with
offset=-9223372036854775808 on the ten-byte file the clamp does not fire, the
seek relative to the end fails and the status is 500. -/
theorem ServeHTTP_min_offset_not_clamped :
    (ServeHTTP plainTail sampleFS
      [("offset", ["-9223372036854775808"]), ("limit", ["10"])]).status = some 500 ∧
    (ServeHTTP plainTail sampleFS
      [("offset", ["-9223372036854775808"]), ("limit", ["10"])]).body = [] := by
  decide

/-- C2, as the code has it. For every handler (with or without a redaction
pattern), every file of size S and every accepted query with offset O and
limit L ≥ 0, whenever `ServeHTTP` answers with status 200 the body has at
most L bytes if -S < O, and at most S bytes if O ≤ -S (the clamp replaces the
requested limit by the file size). -/
theorem ServeHTTP_body_le_limit (t : LogTail) (fs : FileSystem) (query : Values)
    (p : requestParams) (f : File)
    (hp : newRequestParams query = .ok p)
    (hopen : fs (targetPath t p) = .ok f)
    (hL : 0 ≤ p.limit)
    (h200 : (ServeHTTP t fs query).status = some 200) :
    ((ServeHTTP t fs query).body.length : Int) ≤
      (if -(f.content.length : Int) < p.offset then p.limit else (f.content.length : Int)) := by
  obtain ⟨hin, hlim, _⟩ := newRequestParams_inInt64 hp
  have hle := body_length_le_clamped_limit t fs query p f hp hopen
  split
  · rename_i hO
    have hw : wrapInt64 (0 - p.offset) < (f.content.length : Int) := by
      by_cases hmin : p.offset = -2 ^ 63
      · rw [hmin, wrapInt64_neg_min]; omega
      · rw [wrapInt64_neg_of_gt (by have := hin.1; omega) hin.2]; omega
    rw [clampParams_of_lt hw] at hle
    omega
  · rename_i hO
    by_cases hmin : p.offset = -2 ^ 63
    · by_cases hS : (f.content.length : Int) < 2 ^ 63
      · rw [ServeHTTP_min_offset_status t fs query p f hp hopen hmin hS] at h200
        exact absurd h200 (by decide)
      · have hw : wrapInt64 (0 - p.offset) < (f.content.length : Int) := by
          rw [hmin, wrapInt64_neg_min]; omega
        rw [clampParams_of_lt hw] at hle
        have := hlim.2
        omega
    · have hgt : -2 ^ 63 < p.offset := by have := hin.1; omega
      have hw : wrapInt64 (0 - p.offset) ≥ (f.content.length : Int) := by
        rw [wrapInt64_neg_of_gt hgt hin.2]; omega
      have hsize : inInt64 (f.content.length : Int) := ⟨by omega, by omega⟩
      rw [clampParams_of_ge hw] at hle
      simp only [toInt, wrapInt64_of_inInt64 hsize] at hle
      omega

/-- Witness of C2 as amended: with the redaction pattern `I`, offset=2 and
limit=3 on the ten-byte file answer 200 with a body of at most 3 bytes, and
offset=-10 and limit=3 answer 200 with a body of at most 10 bytes. -/
theorem ServeHTTP_body_le_limit_witness :
    ((ServeHTTP redactingTail sampleFS [("offset", ["2"]), ("limit", ["3"])]).status = some 200 ∧
      ((ServeHTTP redactingTail sampleFS
        [("offset", ["2"]), ("limit", ["3"])]).body.length : Int) ≤ 3) ∧
    ((ServeHTTP redactingTail sampleFS [("offset", ["-10"]), ("limit", ["3"])]).status = some 200 ∧
      ((ServeHTTP redactingTail sampleFS
        [("offset", ["-10"]), ("limit", ["3"])]).body.length : Int) ≤ 10) :=
  ⟨⟨by decide, le_trans (ServeHTTP_body_le_limit redactingTail sampleFS
      [("offset", ["2"]), ("limit", ["3"])]
      ⟨2, 3, ""⟩ sampleFile (by decide) (by decide) (by decide) (by decide)) (by decide)⟩,
    ⟨by decide, le_trans (ServeHTTP_body_le_limit redactingTail sampleFS
      [("offset", ["-10"]), ("limit", ["3"])]
      ⟨-10, 3, ""⟩ sampleFile (by decide) (by decide) (by decide) (by decide)) (by decide)⟩⟩

/-- Counterexample to C2 as stated: on the ten-byte file, offset=-10 is a valid
offset (O ≥ -S, O < S) and the requested limit is 3, the status is 200, and
the body is the whole file, 10 bytes. -/
theorem ServeHTTP_limit_exceeded_counterexample :
    newRequestParams [("offset", ["-10"]), ("limit", ["3"])] = .ok ⟨-10, 3, ""⟩ ∧
    (ServeHTTP plainTail sampleFS [("offset", ["-10"]), ("limit", ["3"])]).status = some 200 ∧
    (ServeHTTP plainTail sampleFS [("offset", ["-10"]), ("limit", ["3"])]).body
      = ascii "ABCDEFGHIJ" ∧
    ¬ (ServeHTTP plainTail sampleFS [("offset", ["-10"]), ("limit", ["3"])]).body.length ≤ 3 := by
  decide

/-- C6. For every query in which a present (non-empty) offset value is not a
base-10 signed 64-bit integer, or a present limit value is not a base-10
integer of Go's `int` range, or a present suffix value is not an integer
between 0 and 10, `newRequestParams` fails and `ServeHTTP` answers with status
400 and an empty body, whatever the file system: no file is opened and the
logger is not called (the trace of operations is empty). -/
theorem ServeHTTP_bad_request (t : LogTail) (fs : FileSystem) (query : Values)
    (h : (query.Get "offset" ≠ "" ∧
            decimalIn (query.Get "offset") (-2 ^ 63) (2 ^ 63 - 1) = false) ∨
         (query.Get "limit" ≠ "" ∧
            decimalIn (query.Get "limit") (-2 ^ 63) (2 ^ 63 - 1) = false) ∨
         (query.Get "suffix" ≠ "" ∧ decimalIn (query.Get "suffix") 0 10 = false)) :
    (∃ e, newRequestParams query = .error e) ∧
    ServeHTTP t fs query =
      { status := some 400, fileLength := none, body := [], trace := [], panicked := false } := by
  have hnot : ¬ ∃ p, newRequestParams query = .ok p := by
    rw [newRequestParams_isOk_iff]
    rintro ⟨ho, hl, hs⟩
    rcases h with ⟨h1, h2⟩ | ⟨h1, h2⟩ | ⟨h1, h2⟩
    · rw [ho.resolve_left h1] at h2; cases h2
    · rw [hl.resolve_left h1] at h2; cases h2
    · rw [hs.resolve_left h1] at h2; cases h2
  cases hr : newRequestParams query with
  | ok p => exact absurd ⟨p, hr⟩ hnot
  | error e =>
    refine ⟨⟨e, rfl⟩, ?_⟩
    simp only [ServeHTTP, hr, StatusBadRequest]

/-- Witness of C6: suffix=11 gives status 400, on a file system where the base
file exists. -/
theorem ServeHTTP_bad_request_witness :
    (∃ e, newRequestParams [("suffix", ["11"])] = .error e) ∧
    ServeHTTP plainTail sampleFS [("suffix", ["11"])] =
      { status := some 400, fileLength := none, body := [], trace := [], panicked := false } :=
  ServeHTTP_bad_request plainTail sampleFS [("suffix", ["11"])]
    (Or.inr (Or.inr ⟨by decide, by decide⟩))

/-- C7. For every query on which `newRequestParams` succeeds, the returned
offset is the base-10 value of the offset parameter (an `int64`) when it is
present (non-empty) and -2048 when it is absent, and the returned limit is
the base-10 value of the limit parameter when it is present and 2048 when it
is absent; and on a query with none of offset, limit and suffix it succeeds
with exactly offset -2048, limit 2048 and the empty suffix. -/
theorem newRequestParams_values (query : Values) :
    (∀ p, newRequestParams query = .ok p →
      (if query.Get "offset" ≠ "" then
          decimalValue (query.Get "offset") = some p.offset ∧ inInt64 p.offset
        else p.offset = -2048) ∧
      (if query.Get "limit" ≠ "" then
          decimalValue (query.Get "limit") = some p.limit ∧ inInt64 p.limit
        else p.limit = 2048)) ∧
    (query.Get "offset" = "" → query.Get "limit" = "" → query.Get "suffix" = "" →
      newRequestParams query = .ok { offset := -2048, limit := 2048, suffix := "" }) := by
  constructor
  · intro p hp
    obtain ⟨ho, hl, _, _⟩ := (newRequestParams_ok_iff query p).mp hp
    constructor
    · split
      · rename_i h; rw [if_pos h] at ho; exact (ParseInt_ok_iff _ _).mp ho
      · rename_i h; rw [if_neg h] at ho; exact ho
    · split
      · rename_i h; rw [if_pos h] at hl; exact (Atoi_ok_iff _ _).mp hl
      · rename_i h; rw [if_neg h] at hl; exact hl
  · intro ho hl hs
    rw [newRequestParams_ok_iff]
    simp [ho, hl, hs, defaultOffset, defaultLimit]

/-- Witness of C7: the query offset=-3&limit=10 is accepted with offset -3 and
limit 10, and the empty query with offset -2048 and limit 2048. -/
theorem newRequestParams_values_witness :
    ((decimalValue "-3" = some (-3) ∧ inInt64 (-3)) ∧ (decimalValue "10" = some 10 ∧ inInt64 10)) ∧
    newRequestParams [] = .ok { offset := -2048, limit := 2048, suffix := "" } :=
  ⟨(newRequestParams_values [("offset", ["-3"]), ("limit", ["10"])]).1 ⟨-3, 10, ""⟩ (by decide),
    (newRequestParams_values []).2 (by decide) (by decide) (by decide)⟩

/-- C8 at failing inputs. The one-byte slice "A" is redacted to the three bytes
of U+2588, so `redact` does not keep the byte length; replacing the `I` of
"HIJ" lengthens the buffer from 3 to 5 bytes and moves the `J`, which is
outside the match, from index 2 to index 4; and in the handler, which sizes
the buffer and the copy by the limit, offset=7&limit=3 on "ABCDEFGHIJ" with
the pattern `I` is answered with `H` and the first two bytes of the fill
character: the body is cut inside a character and the `J` is lost, while
without a pattern the body is "HIJ". -/
theorem redact_breaks_byte_length :
    redact (ascii "A") = [0xE2, 0x96, 0x88] ∧
    (redact (ascii "A")).length ≠ (ascii "A").length ∧
    (literalByte 0x49).findAll (ascii "HIJ") = [(1, 2)] ∧
    (literalByte 0x49).ReplaceAllFunc (ascii "HIJ") redact = [0x48, 0xE2, 0x96, 0x88, 0x4A] ∧
    ((literalByte 0x49).ReplaceAllFunc (ascii "HIJ") redact).length ≠ (ascii "HIJ").length ∧
    ((literalByte 0x49).ReplaceAllFunc (ascii "HIJ") redact)[2]? ≠ (ascii "HIJ")[2]? ∧
    (ServeHTTP redactingTail sampleFS [("offset", ["7"]), ("limit", ["3"])]).status = some 200 ∧
    (ServeHTTP redactingTail sampleFS [("offset", ["7"]), ("limit", ["3"])]).body
      = [0x48, 0xE2, 0x96] ∧
    (ServeHTTP plainTail sampleFS [("offset", ["7"]), ("limit", ["3"])]).body = ascii "HIJ" := by
  decide

/-- The suffix field of every accepted query is empty, so the path opened is
always the base path. -/
theorem targetPath_eq_path (t : LogTail) (query : Values) (p : requestParams)
    (hp : newRequestParams query = .ok p) : targetPath t p = t.path := by
  unfold targetPath
  rw [(newRequestParams_inInt64 hp).2.2]
  simp

/-- C5 at the failing input suffix=1, with a current log at `/log` and a
rotated log at `/log.1`: the query is accepted, the returned suffix field is
empty, and the handler opens `/log` and serves the current log, not
`/log.1`. -/
theorem ServeHTTP_suffix_ignored :
    newRequestParams [("suffix", ["1"])] = .ok { offset := -2048, limit := 2048, suffix := "" } ∧
    ServeHTTP plainTail rotatedFS [("suffix", ["1"])] =
      { status := some 200, fileLength := some 7, body := ascii "current",
        trace := [.osOpen "/log", .stat, .seek 0 0, .copyN 7, .close], panicked := false } := by
  decide

/-- C9 at the failing input of its own witness: content "ABCDEFGHIJ", offset=-3,
limit=10. Without a pattern the body is the 3 bytes "HIJ"; with the pattern
`I` the body has 10 bytes, the redacted window followed by five zero bytes
of the buffer that the read did not fill. -/
theorem ServeHTTP_redacted_length_differs :
    (ServeHTTP plainTail sampleFS [("offset", ["-3"]), ("limit", ["10"])]).status = some 200 ∧
    (ServeHTTP plainTail sampleFS [("offset", ["-3"]), ("limit", ["10"])]).body = ascii "HIJ" ∧
    (ServeHTTP redactingTail sampleFS [("offset", ["-3"]), ("limit", ["10"])]).status
      = some 200 ∧
    (ServeHTTP redactingTail sampleFS [("offset", ["-3"]), ("limit", ["10"])]).body
      = [0x48, 0xE2, 0x96, 0x88, 0x4A, 0, 0, 0, 0, 0] ∧
    (ServeHTTP redactingTail sampleFS [("offset", ["-3"]), ("limit", ["10"])]).body.length
      ≠ (ServeHTTP plainTail sampleFS [("offset", ["-3"]), ("limit", ["10"])]).body.length := by
  decide

/-- C10 at the failing input offset=0&limit=-1 with a redaction pattern: the
query is accepted with limit -1, the clamp does not fire, the seek succeeds,
and `make([]byte, params.limit)` is reached with the negative length -1: the
handler panics before writing a status. -/
theorem ServeHTTP_negative_limit_panics :
    newRequestParams [("offset", ["0"]), ("limit", ["-1"])]
      = .ok { offset := 0, limit := -1, suffix := "" } ∧
    ServeHTTP redactingTail sampleFS [("offset", ["0"]), ("limit", ["-1"])] =
      { status := none, fileLength := some 10, body := [],
        trace := [.osOpen "/log", .stat, .seek 0 0, .makeBuf (-1), .close],
        panicked := true } ∧
    (ServeHTTP plainTail sampleFS [("offset", ["0"]), ("limit", ["-1"])]).status = some 200 ∧
    (ServeHTTP plainTail sampleFS [("offset", ["0"]), ("limit", ["-1"])]).body = [] := by
  decide

end Logtail
